import Mathlib

/-!
Verification of TheMimir session runtime (src/cli/history.py, src/cli/case.py,
src/cli/handler.py, src/cli/shell.py) against its specification.

The Python code is shallowly embedded: file contents are lists of lines
(strings without the trailing newline), filesystem side effects are recorded
as explicit operation traces, and the ambient OS state of the case manager is
a small record of existing directories and metadata files.  Python string
primitives (strip, split, startswith, lower, membership) are re-implemented
over `List Char` so that every definition evaluates by kernel reduction.
-/

namespace Mimir

/-! ## Python string primitives -/

/-- Rebuild a `String` from a character list. -/
def strOfList (l : List Char) : String := ⟨l⟩

/-- Drop leading and trailing whitespace from a character list. -/
def trimList (l : List Char) : List Char :=
  ((l.dropWhile Char.isWhitespace).reverse.dropWhile Char.isWhitespace).reverse

/-- Python `str.strip()` (ASCII whitespace). -/
def pyStrip (s : String) : String := strOfList (trimList s.toList)

/-- Split a character list on a single separator character,
Python `str.split(sep)` semantics: `"" → [""]`, separators at the ends
produce empty fields. -/
def splitOnChar (sep : Char) : List Char → List (List Char)
  | [] => [[]]
  | c :: rest =>
    match splitOnChar sep rest with
    | [] => [[c]]
    | h :: t => if c = sep then [] :: h :: t else (c :: h) :: t

/-- Python `s.split(sep)` for a one-character separator. -/
def pySplit (s : String) (sep : Char) : List String :=
  (splitOnChar sep s.toList).map strOfList

/-- Python `c in s` for a single character. -/
def pyContains (s : String) (c : Char) : Bool := s.toList.contains c

/-- Python `s.startswith(p)` for a one-character prefix. -/
def pyStartsWith (s : String) (c : Char) : Bool :=
  match s.toList with
  | [] => false
  | d :: _ => d = c

/-- Python `str.isspace()` combined with the empty check, i.e.
`not s or s.isspace()`: every character is whitespace (true for `""`). -/
def pyBlank (s : String) : Bool := s.toList.all Char.isWhitespace

/-- ASCII lower-casing of one character (Python `str.lower` restricted to
the ASCII command names used by the dispatcher). -/
def pyLowerChar (c : Char) : Char :=
  if 'A' ≤ c && c ≤ 'Z' then Char.ofNat (c.toNat + 32) else c

/-- Python `s.lower()` (ASCII). -/
def pyLower (s : String) : String := strOfList (s.toList.map pyLowerChar)

/-- Python `s.strip(chr)`: drop every leading and trailing occurrence of
one character (used by `handler.case` as `args[1].strip(quote)`). -/
def pyStripChar (s : String) (c : Char) : String :=
  strOfList (((s.toList.dropWhile (· = c)).reverse.dropWhile (· = c)).reverse)

/-- Lexicographic comparison of character lists by code point, the order
Python string comparison uses. -/
def lexLe : List Char → List Char → Bool
  | [], _ => true
  | _ :: _, [] => false
  | a :: as, b :: bs => if a < b then true else if a = b then lexLe as bs else false

/-- Python `s <= t` on strings. -/
def strLe (a b : String) : Bool := lexLe a.toList b.toList

/-- Insert into a `strLe`-sorted list, keeping it sorted. -/
def orderedInsert (a : String) : List String → List String
  | [] => [a]
  | b :: bs => if strLe a b then a :: b :: bs else b :: orderedInsert a bs

/-- Insertion sort by `strLe`; the model of Python `sorted` on strings. -/
def sortStrings : List String → List String
  | [] => []
  | a :: as => orderedInsert a (sortStrings as)

/-- Last `n` elements of a list (`l[-n:]` for `n > 0`). -/
def lastN (n : Nat) (l : List α) : List α := l.drop (l.length - n)

/-- Python slice `l[-k:]`: for `k = 0` this is `l[0:] = l` (the quirk of
negative zero), otherwise the last `min k (length l)` elements. -/
def pySliceLast (k : Nat) (l : List α) : List α :=
  if k = 0 then l else lastN k l

/-! ## HistoryManager (src/cli/history.py) -/

/-- One parsed history record (`{'cmd': ..., 'ts': ..., 'case': ...}`). -/
structure HistEntry where
  cmd : String
  ts : String
  caseName : String
deriving Repr, DecidableEq

/-- `HistoryManager._serialize_line`: `cmd|ts|case` when a case is present
(Python truthiness: `None` and `""` both mean absent), else `cmd|ts`. -/
def serialize_line (cmd ts : String) (caseArg : Option String) : String :=
  if caseArg.getD "" == "" then cmd ++ "|" ++ ts
  else cmd ++ "|" ++ ts ++ "|" ++ caseArg.getD ""

/-- `HistoryManager._parse_line`: split on `|`; fewer than two fields is
`None`; a third field is the case, else empty; empty command or timestamp
(after stripping) is `None`. -/
def parse_line (line : String) : Option HistEntry :=
  let parts := pySplit line '|'
  if parts.length < 2 then Option.none
  else
    let cmd := pyStrip (parts.getD 0 "")
    let ts := pyStrip (parts.getD 1 "")
    let caseName := if 3 ≤ parts.length then pyStrip (parts.getD 2 "") else ""
    if cmd == "" || ts == "" then Option.none
    else some ⟨cmd, ts, caseName⟩

/-- One iteration of the read loop of `HistoryManager.parse_history`:
strip the raw line, skip blank lines and lines starting with `#` or `+`,
otherwise parse it. -/
def history_line_item (raw : String) : Option HistEntry :=
  let line := pyStrip raw
  if line == "" || pyStartsWith line '#' || pyStartsWith line '+' then Option.none
  else parse_line line

/-- `HistoryManager.parse_history`: collect the parseable records in file
order, then return `items[-(limit or len(items)):][::-1]` — most recent
first.  A `limit` of `None` or `0` is falsy in Python and means all. -/
def parse_history (file : List String) (limit : Option Nat) : List HistEntry :=
  let items := file.filterMap history_line_item
  let k := match limit with
    | Option.none => items.length
    | some n => if n = 0 then items.length else n
  (pySliceLast k items).reverse

/-- Recorded filesystem side effects.  `writeFile` is an in-place
`open(path, "w")` whole-file write; `writeTempFile` plus `rename` is the
atomic-replace pattern (`tempfile.mkstemp` + `os.replace`). -/
inductive FsOp where
  | appendFile (path : String)
  | writeFile (path : String)
  | writeTempFile (path : String)
  | rename (src dst : String)
  | mkdir (path : String)
  | chdir (path : String)
deriving Repr, DecidableEq

/-- Name of the temporary file used by history rotation.  The random
suffix produced by `tempfile.mkstemp(prefix=".mhistory.tmp.")` is
abstracted to a fixed name in the same directory. -/
def histTmpPath (histPath : String) : String := histPath ++ ".tmp"

/-- Result of `HistoryManager.save_history`: the new file contents, the
trace of file operations, and the printed messages. -/
structure SaveResult where
  file : List String
  ops : List FsOp
  msgs : List String
deriving Repr, DecidableEq

/-- `HistoryManager.save_history` on the non-exceptional path.  The
timestamp (`datetime.now()` in the source) is passed in explicitly.
Steps: reject blank commands silently; strip; reject commands containing
`|` or a newline with a printed message; append the serialized line; then
rotate if the count of non-blank lines exceeds `max_entries`, rewriting
the kept tail through a temp file renamed over the original. -/
def save_history (histPath : String) (file : List String) (maxEntries : Nat)
    (command ts : String) (caseArg : Option String) : SaveResult :=
  if pyBlank command then ⟨file, [], []⟩
  else
    let command := pyStrip command
    if pyContains command '|' || pyContains command '\n' then
      ⟨file, [], ["Invalid command for history: contains pipe or newline."]⟩
    else
      let line := serialize_line command ts caseArg
      let appended := file ++ [line]
      let lines := appended.filter (fun ln => pyStrip ln != "")
      if maxEntries < lines.length then
        let keep := pySliceLast maxEntries lines
        ⟨keep,
         [FsOp.appendFile histPath, FsOp.writeTempFile (histTmpPath histPath),
          FsOp.rename (histTmpPath histPath) histPath], []⟩
      else
        ⟨appended, [FsOp.appendFile histPath], []⟩

/-! ## CaseManager (src/cli/case.py) -/

/-- Constructor configuration of `CaseManager`: the resolved base path and
the `chdir_on_open` toggle (the shell constructs it with the default
`chdir_on_open = True`). -/
structure CMConfig where
  basePath : String
  chdirOnOpen : Bool
deriving Repr, DecidableEq

/-- `self.investigations_path = os.path.join(base_path, "Investigations")`. -/
def CMConfig.invPath (cfg : CMConfig) : String := cfg.basePath ++ "/Investigations"

/-- `os.path.join(investigations_path, case_name)`. -/
def casePathOf (cfg : CMConfig) (name : String) : String :=
  cfg.invPath ++ "/" ++ name

/-- `os.path.join(case_path, "case.json")`. -/
def caseJsonPath (casePath : String) : String := casePath ++ "/case.json"

/-- `os.path.join(base_path, ".last_case")`, the target of
`CaseManager._persist_last_case` (which swallows all of its own errors). -/
def lastCasePath (cfg : CMConfig) : String := cfg.basePath ++ "/.last_case"

/-- The mutable fields of `CaseManager`. -/
structure CMState where
  currentCase : Option String
  currentCasePath : Option String
deriving Repr, DecidableEq

/-- The parts of the on-disk world the case manager consults.
`dirs` are the names of existing subdirectories of the investigations
root, `rootFiles` the non-directory entries there, `metas` the case names
whose directory holds a `case.json`, and `failPaths` the paths at which
`os.makedirs` raises an `OSError` (modelling e.g. a permission failure;
other OS calls are modelled as total). -/
structure CaseFS where
  dirs : List String
  rootFiles : List String
  metas : List String
  failPaths : List String
deriving Repr, DecidableEq

/-- Python return values flowing out of the `CaseManager` methods:
`None`, a string (a case name), a list of strings (`list_cases`), or the
metadata dictionary returned by `case_info` (always non-empty, hence
truthy, for documents written by this program). -/
inductive PyRet where
  | pnone
  | str (s : String)
  | strList (l : List String)
  | dict
deriving Repr, DecidableEq

/-- Python truthiness of a `PyRet`. -/
def PyRet.truthy : PyRet → Bool
  | .pnone => false
  | .str s => s != ""
  | .strList l => !l.isEmpty
  | .dict => true

/-- Lift an optional string (such as `CaseManager.current_case`) to a
Python value. -/
def PyRet.ofOpt : Option String → PyRet
  | Option.none => .pnone
  | some s => .str s

/-- Result of one `CaseManager` method call: the Python return value, the
new manager state, the new filesystem, the trace of file operations, and
the printed messages. -/
structure CMResult where
  ret : PyRet
  state : CMState
  fs : CaseFS
  ops : List FsOp
  msgs : List String
deriving Repr, DecidableEq

/-- `CaseManager._write_metadata`: `open(meta_path, "w")` followed by
`json.dump` — a plain in-place whole-file write, no temporary file and no
rename. -/
def write_metadata_ops (casePath : String) : List FsOp :=
  [FsOp.writeFile (caseJsonPath casePath)]

/-- `CaseManager.create_case`.  `Except.error` models an uncaught Python
exception (here: `os.makedirs` raising at a path listed in
`fs.failPaths`; the existing-directory branch performs no `makedirs`).
Missing or empty name: message, returns `None`.  Existing directory:
warn, activate the case, persist it, return the name — no metadata is
written or required.  Otherwise: make the directory, write the initial
metadata document in place, activate, persist, return the name. -/
def create_case (cfg : CMConfig) (fs : CaseFS) (st : CMState)
    (name : Option String) : Except String CMResult :=
  if name.getD "" == "" then
    .ok ⟨.pnone, st, fs, [], ["Missing case name."]⟩
  else
    let n := name.getD ""
    let p := casePathOf cfg n
    if fs.dirs.contains n then
      .ok ⟨.str n, ⟨some n, some p⟩, fs,
        (if cfg.chdirOnOpen then [FsOp.chdir p] else []) ++
          [FsOp.writeFile (lastCasePath cfg)],
        ["Case " ++ n ++ " already exists at " ++ p]⟩
    else if fs.failPaths.contains p then
      .error ("makedirs failed: " ++ p)
    else
      .ok ⟨.str n, ⟨some n, some p⟩,
        { fs with dirs := fs.dirs ++ [n], metas := fs.metas ++ [n] },
        [FsOp.mkdir p] ++ write_metadata_ops p ++
          (if cfg.chdirOnOpen then [FsOp.chdir p] else []) ++
          [FsOp.writeFile (lastCasePath cfg)],
        ["New case created: " ++ n ++ " at " ++ p]⟩

/-- `CaseManager.open_case`: requires the metadata document to exist;
otherwise reports not-found and leaves the state unchanged. -/
def open_case (cfg : CMConfig) (fs : CaseFS) (st : CMState)
    (name : Option String) : Except String CMResult :=
  if name.getD "" == "" then
    .ok ⟨.pnone, st, fs, [], ["Missing case name."]⟩
  else
    let n := name.getD ""
    let p := casePathOf cfg n
    if fs.metas.contains n then
      .ok ⟨.str n, ⟨some n, some p⟩, fs,
        (if cfg.chdirOnOpen then [FsOp.chdir p] else []) ++
          [FsOp.writeFile (lastCasePath cfg)],
        ["Opened case: " ++ n]⟩
    else
      .ok ⟨.pnone, st, fs, [], ["Case " ++ n ++ " not found at " ++ p]⟩

/-- `CaseManager.close_case` (ignores its argument). -/
def close_case (cfg : CMConfig) (fs : CaseFS) (st : CMState)
    (_name : Option String) : Except String CMResult :=
  if st.currentCase.getD "" == "" then
    .ok ⟨.pnone, st, fs, [], ["No case currently open."]⟩
  else
    .ok ⟨.pnone, ⟨Option.none, Option.none⟩, fs,
      [FsOp.writeFile (lastCasePath cfg)] ++
        (if cfg.chdirOnOpen then [FsOp.chdir cfg.basePath] else []),
      ["Case " ++ st.currentCase.getD "" ++ " closed."]⟩

/-- `CaseManager.list_cases`: `sorted(d for d in os.listdir(investigations)
if os.path.isdir(...))` — the directory entries that are directories, in
lexicographic order; `case.json` presence plays no role. -/
def list_cases (fs : CaseFS) : List String :=
  sortStrings ((fs.dirs ++ fs.rootFiles).filter (fun d => fs.dirs.contains d))

/-- `CaseManager.case_info` (read-only). -/
def case_info (_cfg : CMConfig) (fs : CaseFS) (st : CMState)
    (name : Option String) : Except String CMResult :=
  if name.getD "" == "" && st.currentCase.getD "" == "" then
    .ok ⟨.pnone, st, fs, [], ["No case specified or open."]⟩
  else
    let n := if name.getD "" == "" then st.currentCase.getD "" else name.getD ""
    if fs.metas.contains n then .ok ⟨.dict, st, fs, [], []⟩
    else .ok ⟨.pnone, st, fs, [], ["No metadata found for case " ++ n]⟩

/-- `CaseManager.handle`: dispatch on the action string; unknown actions
report and return `self.current_case`. -/
def cm_handle (cfg : CMConfig) (fs : CaseFS) (st : CMState)
    (name : Option String) (action : String) : Except String CMResult :=
  if action = "create" then create_case cfg fs st name
  else if action = "open" then open_case cfg fs st name
  else if action = "close" then close_case cfg fs st name
  else if action = "list" then
    let l := list_cases fs
    .ok ⟨.strList l, st, fs, [],
      if l.isEmpty then ["No cases found."] else "Existing cases:" :: l⟩
  else if action = "info" then case_info cfg fs st name
  else .ok ⟨PyRet.ofOpt st.currentCase, st, fs, [], ["Unknown action: " ++ action]⟩

/-! ## Artifact patterns (src/integrations) -/

/-- One alternative of the IPv4 octet pattern
`25[0-5]|2[0-4]\d|1\d{2}|[1-9]?\d` from `abuseIPDB.IP_REGEX`, applied to
one dot-separated field. -/
def octetMatch (s : String) : Bool :=
  match s.toList with
  | [c] => c.isDigit
  | [c, d] => ('1' ≤ c && c ≤ '9') && d.isDigit
  | ['2', '5', c] => '0' ≤ c && c ≤ '5'
  | ['2', c, d] => ('0' ≤ c && c ≤ '4') && d.isDigit
  | ['1', c, d] => c.isDigit && d.isDigit
  | _ => false

/-- `abuseIPDB.IP_REGEX.match`: four octets joined by literal dots,
anchored at both ends. -/
def IP_REGEX_match (s : String) : Bool :=
  let parts := pySplit s '.'
  parts.length == 4 && parts.all octetMatch

/-- A hexadecimal digit. -/
def hexDigit (c : Char) : Bool :=
  c.isDigit || ('a' ≤ c && c ≤ 'f') || ('A' ≤ c && c ≤ 'F')

/-- Modelled from the spec: `malwareBazaar.HASH_REGEX` — the module
`integrations/malwareBazaar.py` is imported by the shell but absent from
`src/`.  Per the spec (§4.3, §8) it accepts an MD5/SHA1/SHA256 hex
digest: 32, 40 or 64 hexadecimal characters. -/
def HASH_REGEX_match (s : String) : Bool :=
  let cs := s.toList
  (cs.length == 32 || cs.length == 40 || cs.length == 64) && cs.all hexDigit

/-- Tail of `urlHaus.URL_REGEX` after `https?://`: one character outside
`[\s/$.?#]`, one character other than a newline (regex `.`), then a run
of non-whitespace to the end. -/
def urlTailMatch : List Char → Bool
  | c1 :: c2 :: rest =>
    !(c1.isWhitespace || c1 == '/' || c1 == '$' || c1 == '.' || c1 == '?' || c1 == '#')
      && !(c2 == '\n') && rest.all (fun c => !c.isWhitespace)
  | _ => false

/-- `://` followed by the URL tail. -/
def urlSchemeTail : List Char → Bool
  | ':' :: '/' :: '/' :: rest => urlTailMatch rest
  | _ => false

/-- `urlHaus.URL_REGEX.match`, pattern `^https?://[^\s/$.?#].[^\s]*$`
with `re.IGNORECASE`: the input is lower-cased (ASCII) and matched
against the lower-case pattern; the optional `s` alternative that does
not consume an `s` can never match `://`, so the greedy branch alone is
equivalent.  The Python `$`-before-final-newline quirk is not modelled:
tokenized arguments never contain newlines. -/
def URL_REGEX_match (s : String) : Bool :=
  match s.toList.map pyLowerChar with
  | 'h' :: 't' :: 't' :: 'p' :: rest =>
    (match rest with
     | 's' :: rest2 => urlSchemeTail rest2
     | _ => urlSchemeTail rest)
  | _ => false

/-! ## CommandHandler (src/cli/handler.py) -/

/-- The three lookup providers held in `self.integrations`. -/
inductive Provider where
  | abuseIPDB
  | malwareBazaar
  | urlHaus
deriving Repr, DecidableEq

/-- Outcome of `CommandHandler.lookup`: which provider (if any) was
invoked, and the printed messages. -/
structure LookupResult where
  invoked : Option Provider
  msgs : List String
deriving Repr, DecidableEq

/-- `CommandHandler.lookup`: usage check, integration availability check
(`ab`, `mb`, `uh` model the three entries of `self.integrations`), then
the fixed detection chain IP → hash → URL; the first matching pattern
selects the single provider invoked; no match prints the unrecognized
message and invokes nothing. -/
def handler_lookup (ab mb uh : Bool) (args : List String) : LookupResult :=
  if args.length != 1 then ⟨Option.none, ["Usage: lookup <artifact>"]⟩
  else if !(ab && mb && uh) then
    ⟨Option.none, ["One or more integrations are not available."]⟩
  else
    let target := args.getD 0 ""
    if IP_REGEX_match target then ⟨some Provider.abuseIPDB, []⟩
    else if HASH_REGEX_match target then ⟨some Provider.malwareBazaar, []⟩
    else if URL_REGEX_match target then ⟨some Provider.urlHaus, []⟩
    else ⟨Option.none, ["Unrecognized artifact type: " ++ target]⟩

/-- The reserved-character raw string of `handler.case` (a raw Python
string spelling the characters `<>:"/\\|?*`, in which the doubled
backslash denotes the backslash character twice) read as a character
set: nine distinct characters. -/
def reservedChars : List Char := ['<', '>', ':', '"', '/', '\\', '|', '?', '*']

/-- `any(c in case_name for c in reserved)`. -/
def containsReserved (s : String) : Bool :=
  reservedChars.any (fun c => pyContains s c)

/-- `CommandHandler.case` (the `-n`, `-o`, `-c` alias route): option check,
`args[1].strip(quote)`, validation of non-close actions against empty or
reserved-character names, then delegation to `CaseManager.handle`.
Returns `None` for close, else the new case or the unchanged
`current_case` argument. -/
def handler_case (cfg : CMConfig) (args : List String) (fs : CaseFS)
    (st : CMState) (cur : PyRet) : Except String CMResult :=
  let opt := args.getD 0 ""
  if args.length < 1 || !(opt == "-n" || opt == "-o" || opt == "-c") then
    .ok ⟨cur, st, fs, [], ["Usage: case [-n | -o | -c] \"case name\""]⟩
  else
    let action := if opt == "-n" then "create"
      else if opt == "-o" then "open" else "close"
    let caseName : Option String :=
      if 1 < args.length then some (pyStripChar (args.getD 1 "") '"') else Option.none
    if action != "close" && (caseName.getD "" == "" || containsReserved (caseName.getD "")) then
      .ok ⟨cur, st, fs, [], ["Invalid or missing case name."]⟩
    else
      (cm_handle cfg fs st caseName action).map (fun r =>
        let newCur := if action == "close" then PyRet.pnone
          else if r.ret.truthy then r.ret else cur
        ⟨newCur, r.state, r.fs, r.ops, r.msgs⟩)

/-- Outcome of the `subprocess.run` fallback of `execute`: the classes of
exceptions the source distinguishes, plus success.  `otherError` stands
for any exception that is neither `CalledProcessError` nor
`FileNotFoundError` (for example `PermissionError`), which the source
does not catch. -/
inductive SubprocOutcome where
  | success (stdout : String)
  | calledProcessError (err : String)
  | fileNotFound
  | otherError (e : String)
deriving Repr, DecidableEq

/-- Behaviour of the collaborators `execute` calls: whether a registered
built-in handler raises (the bodies perform network and terminal work
abstracted here), and what the external-process fallback does. -/
structure ExecuteEnv where
  builtinExc : String → List String → Option String
  subproc : String → List String → SubprocOutcome

/-- The keys of `self.commands` (the `case` command is deliberately not
registered there; it is special-cased in `execute`). -/
def commandKeys : List String :=
  ["help", "exit", "clear", "mhistory", "hash", "ipcheck", "urlcheck", "lookup"]

/-- Result of `CommandHandler.execute`: the `(continue, current_case)`
pair plus session state and output. -/
structure ExecResult where
  cont : Bool
  cur : PyRet
  state : CMState
  fs : CaseFS
  ops : List FsOp
  msgs : List String
deriving Repr, DecidableEq

/-- `CommandHandler.execute`.  The `case` branch is dispatched outside
any `try`, so an exception there propagates (`Except.error`); `exit` and
`quit` return `continue = False`; registered commands run inside
`try/except Exception` which converts any exception into a printed
diagnostic; everything else goes to the subprocess fallback, which
catches only `CalledProcessError` and `FileNotFoundError`. -/
def execute (cfg : CMConfig) (env : ExecuteEnv) (command : String)
    (args : List String) (fs : CaseFS) (st : CMState) (cur : PyRet) :
    Except String ExecResult :=
  let cmd := pyLower command
  if cmd == "case" then
    (handler_case cfg args fs st cur).map (fun r =>
      ⟨true, r.ret, r.state, r.fs, r.ops, r.msgs⟩)
  else if cmd == "exit" || cmd == "quit" then
    .ok ⟨false, cur, st, fs, [], ["Exiting Mimir..."]⟩
  else if commandKeys.contains cmd then
    match env.builtinExc cmd args with
    | some e => .ok ⟨true, cur, st, fs, [], ["Error executing command " ++ cmd ++ ": " ++ e]⟩
    | Option.none => .ok ⟨true, cur, st, fs, [], []⟩
  else
    match env.subproc command args with
    | .success out => .ok ⟨true, cur, st, fs, [], [out]⟩
    | .calledProcessError err => .ok ⟨true, cur, st, fs, [], ["System command failed: " ++ err]⟩
    | .fileNotFound => .ok ⟨true, cur, st, fs, [], ["Unknown command: " ++ command]⟩
    | .otherError e => .error e

/-! ## Session loop fragments (src/cli/shell.py) -/

/-- Result of the `case` word-subcommand branch of the loop (shell.py
lines 101-110): the new loop-level `current_case` value, the manager
state, the filesystem, and the outputs. -/
structure ShellCaseResult where
  cur : PyRet
  state : CMState
  fs : CaseFS
  ops : List FsOp
  msgs : List String
deriving Repr, DecidableEq

/-- The `elif command == "case"` branch of the session loop: no
validation of the name — `args[1]` (or `None`) is handed straight to
`CaseManager.handle`, and the loop variable becomes
`result or case_manager.current_case`. -/
def shell_case_branch (cfg : CMConfig) (args : List String) (fs : CaseFS)
    (st : CMState) (cur : PyRet) : Except String ShellCaseResult :=
  match args with
  | [] => .ok ⟨cur, st, fs, [], ["Usage: case <create|open|close|list|info> [name]"]⟩
  | action :: rest =>
    (cm_handle cfg fs st rest.head? action).map (fun r =>
      let newCur := if r.ret.truthy then r.ret else PyRet.ofOpt r.state.currentCase
      ⟨newCur, r.state, r.fs, r.ops, r.msgs⟩)

/-- Shell.py line 62: the loop records every accepted input line with
`history_manager.save_history(raw)` — the one-argument form.  The case
manager state is in scope in the loop (and its `current_case` may be
set) but is not passed to the append. -/
def shell_save_history (histPath : String) (file : List String)
    (maxEntries : Nat) (raw ts : String) (_caseManager : CMState) : SaveResult :=
  save_history histPath file maxEntries raw ts Option.none

/-- Adjacent-pairs sortedness check for string lists. -/
def chainLeB : List String → Bool
  | [] => true
  | [_] => true
  | a :: b :: t => strLe a b && chainLeB (b :: t)

/-! ## Atomicity helpers -/

/-- Does the trace contain a rename onto `target`?  Every whole-file
atomic replace of `target` must. -/
def renamesOnto (ops : List FsOp) (target : String) : Bool :=
  ops.any (fun op => match op with
    | FsOp.rename _ dst => dst == target
    | _ => false)

/-- Validity of one history record `(cmd, ts, case)`: the conjunction of
the decidable facts the history code checks — `save_history` accepts
`cmd` as given (non-blank, already stripped, no separator and no
newline), and the serialized line survives stripping, comment filtering
and re-parsing intact. -/
@[reducible] def ValidRecord (cmd ts : String) (caseArg : Option String) : Prop :=
  cmd ≠ "" ∧ pyStrip cmd = cmd ∧ pyBlank cmd = false ∧
  pyContains cmd '|' = false ∧ pyContains cmd '\n' = false ∧
  ts ≠ "" ∧ pyStrip ts = ts ∧
  serialize_line cmd ts caseArg ≠ "" ∧
  pyStrip (serialize_line cmd ts caseArg) = serialize_line cmd ts caseArg ∧
  pyStartsWith (serialize_line cmd ts caseArg) '#' = false ∧
  pyStartsWith (serialize_line cmd ts caseArg) '+' = false ∧
  pySplit (serialize_line cmd ts caseArg) '|'
    = (if caseArg.getD "" == "" then [cmd, ts] else [cmd, ts, caseArg.getD ""]) ∧
  pyStrip (caseArg.getD "") = caseArg.getD ""

/-- One append request: the arguments of one `save_history` call. -/
structure HistReq where
  cmd : String
  ts : String
  caseArg : Option String
deriving Repr, DecidableEq

/-- The line a request serializes to. -/
def HistReq.line (r : HistReq) : String := serialize_line r.cmd r.ts r.caseArg

/-- The entry a request parses back to. -/
def HistReq.entry (r : HistReq) : HistEntry := ⟨r.cmd, r.ts, r.caseArg.getD ""⟩

/-- Fold a sequence of `save_history` appends over a history file. -/
def append_all (histPath : String) (maxEntries : Nat) (file : List String)
    (rs : List HistReq) : List String :=
  rs.foldl (fun f r => (save_history histPath f maxEntries r.cmd r.ts r.caseArg).file) file

/-- Five valid appends, the rotation example of the specification. -/
def demo5 : List HistReq :=
  [⟨"c1", "1", Option.none⟩, ⟨"c2", "2", Option.none⟩, ⟨"c3", "3", Option.none⟩,
   ⟨"c4", "4", Option.none⟩, ⟨"c5", "5", Option.none⟩]

/-! ## Sortedness infrastructure for `sortStrings` -/

/-- Totality of the lexicographic comparison. -/
theorem lexLe_total (a b : List Char) : lexLe a b = true ∨ lexLe b a = true := by
  induction a generalizing b with
  | nil => left; rfl
  | cons x xs ih =>
    cases b with
    | nil => right; rfl
    | cons y ys =>
      rcases lt_trichotomy x y with h | h | h
      · left; simp [lexLe, h]
      · subst h
        rcases ih ys with h2 | h2
        · left; simp [lexLe, h2]
        · right; simp [lexLe, h2]
      · right; simp [lexLe, h]

/-- Totality of `strLe`. -/
theorem strLe_total (a b : String) : strLe a b = true ∨ strLe b a = true :=
  lexLe_total a.toList b.toList

/-- Splitting `chainLeB` at the head. -/
theorem chainLeB_cons (b : String) (l : List String) :
    chainLeB (b :: l) = true ↔
      chainLeB l = true ∧ ∀ c, l.head? = some c → strLe b c = true := by
  cases l with
  | nil => simp [chainLeB]
  | cons c t =>
    show (strLe b c && chainLeB (c :: t)) = true ↔ _
    rw [Bool.and_eq_true]
    constructor
    · rintro ⟨h1, h2⟩
      exact ⟨h2, fun d hd => by injection hd with hd; subst hd; exact h1⟩
    · rintro ⟨h1, h2⟩
      exact ⟨h2 c rfl, h1⟩

/-- The head of an ordered insert is the new element or the old head. -/
theorem orderedInsert_head? (x : String) (l : List String) :
    (orderedInsert x l).head? = some x ∨ (orderedInsert x l).head? = l.head? := by
  cases l with
  | nil => left; rfl
  | cons b bs =>
    by_cases h : strLe x b = true
    · left; simp [orderedInsert, h]
    · right; simp [orderedInsert, h]

/-- Ordered insertion preserves sortedness. -/
theorem chainLeB_orderedInsert (x : String) (l : List String)
    (h : chainLeB l = true) : chainLeB (orderedInsert x l) = true := by
  induction l with
  | nil => rfl
  | cons b bs ih =>
    have hb := (chainLeB_cons b bs).mp h
    by_cases hxb : strLe x b = true
    · show chainLeB (if strLe x b then x :: b :: bs else b :: orderedInsert x bs) = true
      rw [if_pos hxb]
      show (strLe x b && chainLeB (b :: bs)) = true
      rw [Bool.and_eq_true]
      exact ⟨hxb, h⟩
    · have hbx : strLe b x = true := by
        rcases strLe_total x b with h1 | h1
        · exact absurd h1 hxb
        · exact h1
      show chainLeB (if strLe x b then x :: b :: bs else b :: orderedInsert x bs) = true
      rw [if_neg hxb]
      apply (chainLeB_cons b _).mpr
      refine ⟨ih hb.1, ?_⟩
      intro c hc
      rcases orderedInsert_head? x bs with hh | hh
      · rw [hh] at hc
        injection hc with hc
        subst hc
        exact hbx
      · rw [hh] at hc
        exact hb.2 c hc

/-- Membership in an ordered insert. -/
theorem mem_orderedInsert (a x : String) (l : List String) :
    a ∈ orderedInsert x l ↔ a = x ∨ a ∈ l := by
  induction l with
  | nil => simp [orderedInsert]
  | cons b bs ih =>
    by_cases h : strLe x b = true
    · simp only [orderedInsert, if_pos h, List.mem_cons]
    · simp only [orderedInsert, if_neg h, List.mem_cons, ih]
      tauto

/-- Sorting does not change membership. -/
theorem mem_sortStrings (a : String) (l : List String) :
    a ∈ sortStrings l ↔ a ∈ l := by
  induction l with
  | nil => simp [sortStrings]
  | cons b bs ih => simp [sortStrings, mem_orderedInsert, ih]

/-- The output of `sortStrings` is sorted. -/
theorem chainLeB_sortStrings (l : List String) : chainLeB (sortStrings l) = true := by
  induction l with
  | nil => rfl
  | cons b bs ih => exact chainLeB_orderedInsert b _ ih

/-! ## Claim C2 -/

/-- C2 counterexample: the metadata write of case
`~/Mimir/Investigations/alpha` is a single in-place `open(path, "w")`
write of `case.json`; its trace contains no rename onto the target, so
the mutation is not a temp-file-plus-rename atomic replace, contradicting
the claim that every metadata mutation is performed that way. -/
theorem c2_counterexample :
    write_metadata_ops "~/Mimir/Investigations/alpha"
        = [FsOp.writeFile "~/Mimir/Investigations/alpha/case.json"]
    ∧ renamesOnto (write_metadata_ops "~/Mimir/Investigations/alpha")
        (caseJsonPath "~/Mimir/Investigations/alpha") = false := by
  exact ⟨by decide, by decide⟩

/-- C2 (amended): history rotation rewrites go through a temporary file
renamed over the history file (atomic replace, with a non-atomic
in-place fallback only if that raises, not modelled here); case metadata
mutations, by contrast, are plain in-place whole-file writes of
`case.json` with no temporary file and no rename. -/
theorem c2_atomic_history_inplace_metadata :
    (∀ casePath, write_metadata_ops casePath
        = [FsOp.writeFile (caseJsonPath casePath)])
    ∧ (∀ histPath file maxEntries command ts caseArg,
        pyBlank command = false →
        (pyContains (pyStrip command) '|' || pyContains (pyStrip command) '\n') = false →
        maxEntries < ((file ++ [serialize_line (pyStrip command) ts caseArg]).filter
          (fun ln => pyStrip ln != "")).length →
        (save_history histPath file maxEntries command ts caseArg).ops
          = [FsOp.appendFile histPath, FsOp.writeTempFile (histTmpPath histPath),
             FsOp.rename (histTmpPath histPath) histPath]) := by
  constructor
  · intro casePath; rfl
  · intro histPath file maxEntries command ts caseArg h1 h2 h3
    simp only [save_history, h1, h2, Bool.false_eq_true, if_false, if_pos h3]

/-- C2 witness: the amended statement applied to the metadata path `c`
and to a rotation with a maximum of 1 entry. -/
theorem c2_witness :
    write_metadata_ops "c" = [FsOp.writeFile (caseJsonPath "c")]
    ∧ (save_history ".mh" ["a|1"] 1 "b" "2" Option.none).ops
        = [FsOp.appendFile ".mh", FsOp.writeTempFile (histTmpPath ".mh"),
           FsOp.rename (histTmpPath ".mh") ".mh"] :=
  ⟨c2_atomic_history_inplace_metadata.1 "c",
   c2_atomic_history_inplace_metadata.2 ".mh" ["a|1"] 1 "b" "2" Option.none
     (by decide) (by decide) (by decide)⟩

/-! ## Claim C9 -/

/-- C9: `list_cases` returns exactly the names of the subdirectories of
the investigations root — sorted by the lexicographic order, with
membership independent of whether a directory carries a `case.json`
(the `metas` component of the filesystem plays no role at all). -/
theorem c9_list_cases (fs : CaseFS) :
    chainLeB (list_cases fs) = true
    ∧ (∀ d, d ∈ list_cases fs ↔ d ∈ fs.dirs)
    ∧ (∀ metas2 fail2,
        list_cases { fs with metas := metas2, failPaths := fail2 } = list_cases fs) := by
  refine ⟨chainLeB_sortStrings _, ?_, fun _ _ => rfl⟩
  intro d
  rw [list_cases, mem_sortStrings, List.mem_filter]
  constructor
  · rintro ⟨-, h2⟩
    exact List.elem_iff.mp h2
  · intro h
    exact ⟨List.mem_append_left _ h, List.elem_iff.mpr h⟩

/-! ## Claim C10 -/

/-- C10: for a name whose directory exists but holds no metadata
document, `create_case` activates the case — it sets `current_case` and
the path, returns the name, writes only the `.last_case` marker (no
metadata write, no metadata requirement) — while `open_case` on the very
same state reports not-found, returns `None` and leaves the manager
state unchanged. -/
theorem c10_create_open_metadataless (cfg : CMConfig) (fs : CaseFS) (st : CMState)
    (n : String) (hn : n ≠ "") (hdir : fs.dirs.contains n = true)
    (hmeta : fs.metas.contains n = false) :
    create_case cfg fs st (some n)
      = .ok ⟨.str n, ⟨some n, some (casePathOf cfg n)⟩, fs,
          (if cfg.chdirOnOpen then [FsOp.chdir (casePathOf cfg n)] else []) ++
            [FsOp.writeFile (lastCasePath cfg)],
          ["Case " ++ n ++ " already exists at " ++ casePathOf cfg n]⟩
    ∧ open_case cfg fs st (some n)
      = .ok ⟨.pnone, st, fs, [], ["Case " ++ n ++ " not found at " ++ casePathOf cfg n]⟩ := by
  have hne : (n == "") = false := by
    simp [hn]
  have hd : n ∈ fs.dirs := List.elem_iff.mp hdir
  have hm : n ∉ fs.metas := by
    intro hmem
    have : fs.metas.contains n = true := List.elem_iff.mpr hmem
    rw [this] at hmeta
    simp at hmeta
  constructor
  · simp [create_case, Option.getD, hne, hd]
  · simp [open_case, Option.getD, hne, hm]

/-- C10 witness: a filesystem with directory `alpha` and no metadata. -/
theorem c10_witness :
    create_case ⟨"base", true⟩ ⟨["alpha"], [], [], []⟩ ⟨Option.none, Option.none⟩ (some "alpha")
      = .ok ⟨.str "alpha", ⟨some "alpha", some "base/Investigations/alpha"⟩,
          ⟨["alpha"], [], [], []⟩,
          [FsOp.chdir "base/Investigations/alpha", FsOp.writeFile "base/.last_case"],
          ["Case alpha already exists at base/Investigations/alpha"]⟩
    ∧ open_case ⟨"base", true⟩ ⟨["alpha"], [], [], []⟩ ⟨Option.none, Option.none⟩ (some "alpha")
      = .ok ⟨.pnone, ⟨Option.none, Option.none⟩, ⟨["alpha"], [], [], []⟩, [],
          ["Case alpha not found at base/Investigations/alpha"]⟩ := by
  have h := c10_create_open_metadataless ⟨"base", true⟩ ⟨["alpha"], [], [], []⟩
      ⟨Option.none, Option.none⟩ "alpha" (by decide) (by decide) (by decide)
  exact h

/-! ## History round-trip lemmas -/

/-- A well-formed serialized line re-parses to its record. -/
theorem parse_line_serialize (cmd ts : String) (caseArg : Option String)
    (h : ValidRecord cmd ts caseArg) :
    parse_line (serialize_line cmd ts caseArg) = some ⟨cmd, ts, caseArg.getD ""⟩ := by
  obtain ⟨h1, h2, h3, h4, h5, h6, h7, h8, h9, h10, h11, h12, h13⟩ := h
  by_cases hc : (caseArg.getD "" == "") = true
  · rw [if_pos hc] at h12
    have hce : caseArg.getD "" = "" := by simpa using hc
    simp [parse_line, h12, h2, h7, h1, h6, hce]
  · rw [if_neg hc] at h12
    simp [parse_line, h12, h2, h7, h13, h1, h6]

/-- A well-formed serialized line survives the read-loop filters. -/
theorem history_line_item_serialize (cmd ts : String) (caseArg : Option String)
    (h : ValidRecord cmd ts caseArg) :
    history_line_item (serialize_line cmd ts caseArg) = some ⟨cmd, ts, caseArg.getD ""⟩ := by
  have hp := parse_line_serialize cmd ts caseArg h
  obtain ⟨h1, h2, h3, h4, h5, h6, h7, h8, h9, h10, h11, h12, h13⟩ := h
  simp [history_line_item, h9, h10, h11, h8, hp]

/-- A well-formed serialized line is not blank after stripping. -/
theorem valid_line_nonblank (cmd ts : String) (caseArg : Option String)
    (h : ValidRecord cmd ts caseArg) :
    pyStrip (serialize_line cmd ts caseArg) ≠ "" := by
  obtain ⟨-, -, -, -, -, -, -, h8, h9, -, -, -, -⟩ := h
  rw [h9]
  exact h8

/-- Filtering for non-blank lines keeps a list of non-blank lines. -/
theorem filter_nonblank_eq (l : List String) (h : ∀ ln ∈ l, pyStrip ln ≠ "") :
    l.filter (fun ln => pyStrip ln != "") = l := by
  apply List.filter_eq_self.mpr
  intro a ha
  simpa using h a ha

/-- `save_history` on a valid record over a blank-free file: append, then
keep the Python tail slice when the count exceeds the maximum. -/
theorem save_history_valid_file (p : String) (file : List String) (max : Nat)
    (cmd ts : String) (caseArg : Option String) (h : ValidRecord cmd ts caseArg)
    (hfile : ∀ ln ∈ file, pyStrip ln ≠ "") :
    (save_history p file max cmd ts caseArg).file =
      if max < (file ++ [serialize_line cmd ts caseArg]).length
      then pySliceLast max (file ++ [serialize_line cmd ts caseArg])
      else file ++ [serialize_line cmd ts caseArg] := by
  have hfil : (file ++ [serialize_line cmd ts caseArg]).filter (fun ln => pyStrip ln != "")
      = file ++ [serialize_line cmd ts caseArg] := by
    apply filter_nonblank_eq
    intro ln hln
    rcases List.mem_append.mp hln with hl | hl
    · exact hfile ln hl
    · rw [List.mem_singleton.mp hl]
      exact valid_line_nonblank cmd ts caseArg h
  obtain ⟨h1, h2, h3, h4, h5, h6, h7, h8, h9, h10, h11, h12, h13⟩ := h
  simp only [save_history, h3, Bool.false_eq_true, if_false, h2, h4, h5,
    Bool.or_self, hfil]
  split <;> rfl

/-- One rotation step starting from a tail slice equals the tail slice of
the grown list. -/
theorem lastN_rot_step {α : Type} (max : Nat) (hmax : 0 < max) (xs : List α) (a : α) :
    (if max < (lastN max xs ++ [a]).length then pySliceLast max (lastN max xs ++ [a])
     else lastN max xs ++ [a]) = lastN max (xs ++ [a]) := by
  have hla : ([a] : List α).length = 1 := rfl
  by_cases hn : xs.length < max
  · have h1 : lastN max xs = xs := by
      rw [lastN, Nat.sub_eq_zero_of_le (Nat.le_of_lt hn), List.drop_zero]
    have h2 : ¬ max < (xs ++ [a]).length := by
      rw [List.length_append, hla]
      omega
    have h3 : lastN max (xs ++ [a]) = xs ++ [a] := by
      rw [lastN, List.length_append, hla, Nat.sub_eq_zero_of_le (by omega), List.drop_zero]
    rw [h1, if_neg h2, h3]
  · push_neg at hn
    have hlen : (lastN max xs).length = max := by
      rw [lastN, List.length_drop]
      omega
    have hc : max < (lastN max xs ++ [a]).length := by
      rw [List.length_append, hlen, hla]
      omega
    rw [if_pos hc, pySliceLast, if_neg (Nat.pos_iff_ne_zero.mp hmax)]
    rw [lastN, List.length_append, hlen, hla]
    have h4 : max + 1 - max = 1 := by omega
    rw [h4, List.drop_append_of_le_length (by rw [hlen]; omega)]
    rw [lastN, List.drop_drop]
    rw [lastN, List.length_append, hla]
    rw [List.drop_append_of_le_length (by omega)]
    have heq : ∀ k1 k2 : Nat, k1 = k2 → xs.drop k1 ++ [a] = xs.drop k2 ++ [a] := by
      intro k1 k2 h
      rw [h]
    apply heq
    omega

/-- Folding valid appends over a tail slice yields the tail slice of the
full serialized sequence. -/
theorem append_all_lastN (p : String) (max : Nat) (hmax : 0 < max) :
    ∀ (rs : List HistReq), (∀ r ∈ rs, ValidRecord r.cmd r.ts r.caseArg) →
    ∀ (base : List String), (∀ ln ∈ base, pyStrip ln ≠ "") →
      append_all p max (lastN max base) rs = lastN max (base ++ rs.map HistReq.line) := by
  intro rs
  induction rs with
  | nil =>
    intro _ base _
    simp [append_all]
  | cons r rs ih =>
    intro hv base hbase
    have hr : ValidRecord r.cmd r.ts r.caseArg := hv r (List.mem_cons_self r rs)
    have hbase2 : ∀ ln ∈ base ++ [r.line], pyStrip ln ≠ "" := by
      intro ln hln
      rcases List.mem_append.mp hln with hl | hl
      · exact hbase ln hl
      · rw [List.mem_singleton.mp hl]
        exact valid_line_nonblank r.cmd r.ts r.caseArg hr
    have hsub : ∀ ln ∈ lastN max base, pyStrip ln ≠ "" := by
      intro ln hln
      exact hbase ln (List.drop_subset _ _ hln)
    have hstep : (save_history p (lastN max base) max r.cmd r.ts r.caseArg).file
        = lastN max (base ++ [r.line]) := by
      rw [save_history_valid_file p (lastN max base) max r.cmd r.ts r.caseArg hr hsub]
      exact lastN_rot_step max hmax base r.line
    calc append_all p max (lastN max base) (r :: rs)
        = append_all p max
            ((save_history p (lastN max base) max r.cmd r.ts r.caseArg).file) rs := rfl
      _ = append_all p max (lastN max (base ++ [r.line])) rs := by rw [hstep]
      _ = lastN max ((base ++ [r.line]) ++ rs.map HistReq.line) :=
            ih (fun x hx => hv x (List.mem_cons_of_mem r hx)) (base ++ [r.line]) hbase2
      _ = lastN max (base ++ (r :: rs).map HistReq.line) := by
            rw [List.append_assoc]
            rfl

/-- Folding valid appends over the empty file keeps the last `max`
serialized lines, in order. -/
theorem append_all_eq (p : String) (max : Nat) (hmax : 0 < max) (rs : List HistReq)
    (hv : ∀ r ∈ rs, ValidRecord r.cmd r.ts r.caseArg) :
    append_all p max [] rs = lastN max (rs.map HistReq.line) := by
  have h0 : lastN max ([] : List String) = [] := by simp [lastN]
  have h := append_all_lastN p max hmax rs hv [] (by intro ln hln; cases hln)
  rw [h0] at h
  simpa using h

/-- A `filterMap` that hits on every element is a `map`. -/
theorem filterMap_eq_map_of_some {α β : Type} (f : α → Option β) (g : α → β) :
    ∀ (l : List α), (∀ x ∈ l, f x = some (g x)) → l.filterMap f = l.map g := by
  intro l
  induction l with
  | nil => intro _; rfl
  | cons a t ih =>
    intro h
    rw [List.filterMap_cons, h a (List.mem_cons_self a t), List.map_cons,
      ih (fun x hx => h x (List.mem_cons_of_mem a hx))]

/-- The Python slice `l[-len(l):]` is all of `l`. -/
theorem pySliceLast_self {α : Type} (l : List α) : pySliceLast l.length l = l := by
  rw [pySliceLast]
  split
  · rfl
  · rw [lastN, Nat.sub_self, List.drop_zero]

/-- Reading a file whose lines all parse returns the parsed entries,
most recent first. -/
theorem parse_history_all_valid (file : List String) (es : List HistEntry)
    (h : file.filterMap history_line_item = es) :
    parse_history file Option.none = es.reverse := by
  simp only [parse_history, h]
  rw [pySliceLast_self]

/-- Taking the tail slice commutes with `map`. -/
theorem lastN_map {α β : Type} (f : α → β) (n : Nat) (l : List α) :
    lastN n (l.map f) = (lastN n l).map f := by
  rw [lastN, lastN, List.length_map, List.map_drop]

/-! ## Claim C5 -/

/-- C5: with the history maximum configured to a positive `max`, after
any sequence of valid appends starting from an empty history, the stored
file is exactly the serialization of the last `max` appended records in
their original chronological order (older entries dropped first), and a
subsequent unlimited read returns exactly those records, most recent
first. -/
theorem c5_rotation_keeps_last (p : String) (max : Nat) (hmax : 0 < max)
    (rs : List HistReq) (hv : ∀ r ∈ rs, ValidRecord r.cmd r.ts r.caseArg) :
    append_all p max [] rs = (lastN max rs).map HistReq.line
    ∧ parse_history (append_all p max [] rs) Option.none
        = ((lastN max rs).map HistReq.entry).reverse := by
  have hfile : append_all p max [] rs = (lastN max rs).map HistReq.line := by
    rw [append_all_eq p max hmax rs hv, lastN_map]
  refine ⟨hfile, ?_⟩
  rw [hfile]
  apply parse_history_all_valid
  rw [List.filterMap_map]
  apply filterMap_eq_map_of_some
  intro r hr
  exact history_line_item_serialize r.cmd r.ts r.caseArg
    (hv r (List.drop_subset _ _ hr))

/-- C5 witness: maximum 3, five valid appends; exactly the last three
lines remain in order and the read returns them most recent first. -/
theorem c5_witness :
    append_all ".mh" 3 [] demo5 = ["c3|3", "c4|4", "c5|5"]
    ∧ parse_history (append_all ".mh" 3 [] demo5) Option.none
        = [⟨"c5", "5", ""⟩, ⟨"c4", "4", ""⟩, ⟨"c3", "3", ""⟩] := by
  have h := c5_rotation_keeps_last ".mh" 3 (by decide) demo5 (by decide)
  exact ⟨h.1.trans (by decide), h.2.trans (by decide)⟩

/-! ## Claim C6 -/

/-- C6: starting from an empty history, appending `("case list", t1, no
case)` then `("ipcheck 1.2.3.4", t2, case "alpha")` and reading with no
limit yields exactly the two entries most recent first, case fields
preserved exactly (empty and `"alpha"`). -/
theorem c6_roundtrip (p t1 t2 : String)
    (h1 : ValidRecord "case list" t1 Option.none)
    (h2 : ValidRecord "ipcheck 1.2.3.4" t2 (some "alpha")) :
    parse_history
      ((save_history p ((save_history p [] 200 "case list" t1 Option.none).file)
          200 "ipcheck 1.2.3.4" t2 (some "alpha")).file) Option.none
      = [⟨"ipcheck 1.2.3.4", t2, "alpha"⟩, ⟨"case list", t1, ""⟩] := by
  have hf1 : (save_history p [] 200 "case list" t1 Option.none).file
      = [serialize_line "case list" t1 Option.none] := by
    rw [save_history_valid_file p [] 200 _ _ _ h1 (by intro ln hln; cases hln)]
    norm_num
  have hf2 : (save_history p [serialize_line "case list" t1 Option.none] 200
      "ipcheck 1.2.3.4" t2 (some "alpha")).file
      = [serialize_line "case list" t1 Option.none,
         serialize_line "ipcheck 1.2.3.4" t2 (some "alpha")] := by
    rw [save_history_valid_file p _ 200 _ _ _ h2 ?_]
    · norm_num
    · intro ln hln
      rw [List.mem_singleton.mp hln]
      exact valid_line_nonblank _ _ _ h1
  rw [hf1, hf2]
  have hfm : [serialize_line "case list" t1 Option.none,
      serialize_line "ipcheck 1.2.3.4" t2 (some "alpha")].filterMap history_line_item
      = [⟨"case list", t1, ""⟩, ⟨"ipcheck 1.2.3.4", t2, "alpha"⟩] := by
    rw [List.filterMap_cons, List.filterMap_cons, List.filterMap_nil,
      history_line_item_serialize _ _ _ h1, history_line_item_serialize _ _ _ h2]
    rfl
  simpa using parse_history_all_valid _ _ hfm

/-- C6 witness: concrete timestamps. -/
theorem c6_witness :
    parse_history
      ((save_history ".mh"
          ((save_history ".mh" [] 200 "case list" "2026-02-03 10:00:00" Option.none).file)
          200 "ipcheck 1.2.3.4" "2026-02-03 10:00:01" (some "alpha")).file) Option.none
      = [⟨"ipcheck 1.2.3.4", "2026-02-03 10:00:01", "alpha"⟩,
         ⟨"case list", "2026-02-03 10:00:00", ""⟩] :=
  c6_roundtrip ".mh" "2026-02-03 10:00:00" "2026-02-03 10:00:01" (by decide) (by decide)

/-! ## Claim C8 -/

/-- C8: a legacy two-field line `cmd|ts` parses into an entry with an
empty case field, and a malformed line with fewer than two
separator-delimited fields is skipped silently — reading a file with such
a line returns exactly what the file without it returns. -/
theorem c8_legacy_and_malformed :
    (∀ cmd ts, ValidRecord cmd ts Option.none →
      parse_line (cmd ++ "|" ++ ts) = some ⟨cmd, ts, ""⟩)
    ∧ (∀ pre bad post, (pySplit (pyStrip bad) '|').length < 2 →
        parse_history (pre ++ bad :: post) Option.none
          = parse_history (pre ++ post) Option.none) := by
  constructor
  · intro cmd ts h
    have hp := parse_line_serialize cmd ts Option.none h
    simpa [serialize_line] using hp
  · intro pre bad post h
    have hnone : history_line_item bad = Option.none := by
      simp only [history_line_item]
      split
      · rfl
      · simp only [parse_line]
        rw [if_pos h]
    simp [parse_history, List.filterMap_append, List.filterMap_cons, hnone]

/-- C8 witness: the legacy line `a|t` and a separator-free malformed
line inside a file. -/
theorem c8_witness :
    parse_line ("a" ++ "|" ++ "t") = some ⟨"a", "t", ""⟩
    ∧ parse_history (["x|1"] ++ "malformed" :: ["y|2"]) Option.none
        = parse_history (["x|1"] ++ ["y|2"]) Option.none :=
  ⟨c8_legacy_and_malformed.1 "a" "t" (by decide),
   c8_legacy_and_malformed.2 ["x|1"] "malformed" ["y|2"] (by decide)⟩

/-! ## Claim C3 -/

/-- C3 counterexample: with case `alpha` open in the case manager, the
session loop records `ipcheck 1.2.3.4`; the entry read back carries an
empty case field, not `alpha` — the loop calls `save_history(raw)`
without the case argument, so the claim that an entry appended while a
case is open carries that case name is false. -/
theorem c3_counterexample :
    parse_history
      ((shell_save_history ".mhistory" [] 200 "ipcheck 1.2.3.4" "2026-02-03 10:00:00"
          ⟨some "alpha", some "~/Mimir/Investigations/alpha"⟩).file) Option.none
      = [⟨"ipcheck 1.2.3.4", "2026-02-03 10:00:00", ""⟩] := by
  decide

/-- C3 (amended): the session loop appends every accepted line with the
command text and timestamp only; the case argument is never passed, so
the recorded case field is empty whatever the active case is, and the
appended line re-parses with an empty case field. -/
theorem c3_append_ignores_active_case :
    (∀ p file max raw ts st,
      shell_save_history p file max raw ts st
        = save_history p file max raw ts Option.none)
    ∧ (∀ raw ts, ValidRecord (pyStrip raw) ts Option.none →
        history_line_item (serialize_line (pyStrip raw) ts Option.none)
          = some ⟨pyStrip raw, ts, ""⟩) := by
  constructor
  · intro p file max raw ts st
    rfl
  · intro raw ts h
    simpa using history_line_item_serialize (pyStrip raw) ts Option.none h

/-- C3 witness: the state-independence at a state with `alpha` open, and
the empty-case parse of a concrete appended line. -/
theorem c3_witness :
    shell_save_history ".mh" [] 200 "x" "t" ⟨some "alpha", Option.none⟩
        = save_history ".mh" [] 200 "x" "t" Option.none
    ∧ history_line_item (serialize_line (pyStrip "ipcheck 1.2.3.4") "t" Option.none)
        = some ⟨pyStrip "ipcheck 1.2.3.4", "t", ""⟩ :=
  ⟨c3_append_ignores_active_case.1 ".mh" [] 200 "x" "t" ⟨some "alpha", Option.none⟩,
   c3_append_ignores_active_case.2 "ipcheck 1.2.3.4" "t" (by decide)⟩

/-! ## Claim C1 -/

/-- C1 counterexample: through the word-subcommand route, `case create
bad<name` passes the reserved character `<` straight to the case
manager: the case is created and activated (the loop current case and
the manager state both become `bad<name`), a metadata file is written,
and no validation message is printed — contradicting the claim that
every route rejects reserved-character names and leaves the active case
unchanged. -/
theorem c1_counterexample :
    shell_case_branch ⟨"~/Mimir", true⟩ ["create", "bad<name"] ⟨[], [], [], []⟩
        ⟨Option.none, Option.none⟩ PyRet.pnone
      = .ok ⟨PyRet.str "bad<name",
          ⟨some "bad<name", some "~/Mimir/Investigations/bad<name"⟩,
          ⟨["bad<name"], [], ["bad<name"], []⟩,
          [FsOp.mkdir "~/Mimir/Investigations/bad<name",
           FsOp.writeFile "~/Mimir/Investigations/bad<name/case.json",
           FsOp.chdir "~/Mimir/Investigations/bad<name",
           FsOp.writeFile "~/Mimir/.last_case"],
          ["New case created: bad<name at ~/Mimir/Investigations/bad<name"]⟩ := by
  rfl

/-- C1 (amended): only the alias route validates — for every name whose
quote-stripped form contains a reserved character, `case -n name` and
`case -o name` print the validation message and leave the manager state,
the filesystem and the loop current case unchanged; the word-subcommand
route performs no validation at all (see the counterexample). -/
theorem c1_alias_route_validates (cfg : CMConfig) (fs : CaseFS) (st : CMState)
    (cur : PyRet) (flag name : String) (hflag : flag = "-n" ∨ flag = "-o")
    (hres : containsReserved (pyStripChar name '"') = true) :
    handler_case cfg [flag, name] fs st cur
      = .ok ⟨cur, st, fs, [], ["Invalid or missing case name."]⟩ := by
  rcases hflag with h | h <;> subst h <;> simp [handler_case, hres]

/-- C1 witness: rejecting `bad<name` on the `-n` alias route. -/
theorem c1_witness :
    handler_case ⟨"~/Mimir", true⟩ ["-n", "bad<name"] ⟨[], [], [], []⟩
        ⟨Option.none, Option.none⟩ PyRet.pnone
      = .ok ⟨PyRet.pnone, ⟨Option.none, Option.none⟩, ⟨[], [], [], []⟩, [],
          ["Invalid or missing case name."]⟩ :=
  c1_alias_route_validates ⟨"~/Mimir", true⟩ ⟨[], [], [], []⟩ ⟨Option.none, Option.none⟩
    PyRet.pnone "-n" "bad<name" (Or.inl rfl) (by decide)

/-! ## Claim C4 -/

/-- C4 counterexample: `execute("case", ["-n", "x"])` while `os.makedirs`
raises at the new case path propagates the exception out of `execute`
instead of converting it into a diagnostic — the `case` branch is
dispatched outside the `try`, contradicting the claim that every
handler exception is caught at the execute boundary. -/
theorem c4_counterexample :
    execute ⟨"~/Mimir", true⟩
        ⟨fun _ _ => Option.none, fun _ _ => SubprocOutcome.fileNotFound⟩
        "case" ["-n", "x"] ⟨[], [], [], ["~/Mimir/Investigations/x"]⟩
        ⟨Option.none, Option.none⟩ PyRet.pnone
      = .error "makedirs failed: ~/Mimir/Investigations/x" := by
  rfl

/-- C4 (amended): whenever `execute` returns normally, `continue` is
false exactly for the lower-cased commands `exit` and `quit`; and for
every command registered in the dispatch table (other than `exit`),
every handler exception is caught — `execute` returns normally with
`continue = true` and the current case unchanged, whatever the handler
behaviour.  Exceptions from the `case` branch, and exceptions other
than `CalledProcessError` and `FileNotFoundError` in the
external-process fallback, propagate instead (see the counterexample). -/
theorem c4_execute_contract :
    (∀ cfg env command args fs st cur r,
      execute cfg env command args fs st cur = .ok r →
      (r.cont = false ↔ (pyLower command = "exit" ∨ pyLower command = "quit")))
    ∧ (∀ cfg env command args fs st cur,
      commandKeys.contains (pyLower command) = true →
      pyLower command ≠ "exit" →
      ∃ r, execute cfg env command args fs st cur = .ok r
        ∧ r.cont = true ∧ r.cur = cur) := by
  constructor
  · intro cfg env command args fs st cur r hok
    simp only [execute] at hok
    by_cases h1 : (pyLower command == "case") = true
    · rw [if_pos h1] at hok
      have hcase : pyLower command = "case" := by simpa using h1
      cases hc : handler_case cfg args fs st cur with
      | error e => rw [hc] at hok; simp [Except.map] at hok
      | ok v =>
        rw [hc] at hok
        simp only [Except.map] at hok
        injection hok with hok
        subst hok
        simp [hcase]
    · rw [if_neg h1] at hok
      by_cases h2 : (pyLower command == "exit" || pyLower command == "quit") = true
      · rw [if_pos h2] at hok
        injection hok with hok
        subst hok
        simpa using h2
      · rw [if_neg h2] at hok
        have h2f : (pyLower command = "exit" ∨ pyLower command = "quit") → False := by
          intro hor
          apply h2
          rcases hor with h | h <;> simp [h]
        by_cases h3 : (commandKeys.contains (pyLower command)) = true
        · rw [if_pos h3] at hok
          cases hbe : env.builtinExc (pyLower command) args with
          | some e =>
            rw [hbe] at hok
            injection hok with hok
            subst hok
            exact iff_of_false (by simp) h2f
          | none =>
            rw [hbe] at hok
            injection hok with hok
            subst hok
            exact iff_of_false (by simp) h2f
        · rw [if_neg h3] at hok
          cases hsp : env.subproc command args with
          | success out =>
            rw [hsp] at hok
            injection hok with hok
            subst hok
            exact iff_of_false (by simp) h2f
          | calledProcessError err =>
            rw [hsp] at hok
            injection hok with hok
            subst hok
            exact iff_of_false (by simp) h2f
          | fileNotFound =>
            rw [hsp] at hok
            injection hok with hok
            subst hok
            exact iff_of_false (by simp) h2f
          | otherError e =>
            rw [hsp] at hok
            cases hok
  · intro cfg env command args fs st cur hmem hexit
    have hne_case : (pyLower command == "case") = false := by
      apply beq_eq_false_iff_ne.mpr
      intro h
      rw [h] at hmem
      simp [commandKeys] at hmem
    have hne_quit : (pyLower command == "quit") = false := by
      apply beq_eq_false_iff_ne.mpr
      intro h
      rw [h] at hmem
      simp [commandKeys] at hmem
    have hne_exit : (pyLower command == "exit") = false :=
      beq_eq_false_iff_ne.mpr hexit
    simp only [execute, hne_case, hne_exit, hne_quit, Bool.or_self,
      Bool.false_eq_true, if_false, hmem, if_true]
    cases hbe : env.builtinExc (pyLower command) args with
    | some e => exact ⟨_, rfl, rfl, rfl⟩
    | none => exact ⟨_, rfl, rfl, rfl⟩

/-- C4 witness: `exit` yields `continue = false`; the registered
command `lookup` returns normally with `continue = true` even when its
handler raises. -/
theorem c4_witness :
    ((false = false) ↔ (pyLower "exit" = "exit" ∨ pyLower "exit" = "quit"))
    ∧ ∃ r, execute ⟨"~/Mimir", true⟩
        ⟨fun _ _ => some "boom", fun _ _ => SubprocOutcome.fileNotFound⟩
        "lookup" ["x"] ⟨[], [], [], []⟩ ⟨Option.none, Option.none⟩ PyRet.pnone
        = .ok r ∧ r.cont = true ∧ r.cur = PyRet.pnone := by
  constructor
  · have h := c4_execute_contract.1 ⟨"~/Mimir", true⟩
      ⟨fun _ _ => Option.none, fun _ _ => SubprocOutcome.fileNotFound⟩
      "exit" [] ⟨[], [], [], []⟩ ⟨Option.none, Option.none⟩ PyRet.pnone
      ⟨false, PyRet.pnone, ⟨Option.none, Option.none⟩, ⟨[], [], [], []⟩, [],
        ["Exiting Mimir..."]⟩ rfl
    exact h
  · exact c4_execute_contract.2 ⟨"~/Mimir", true⟩
      ⟨fun _ _ => some "boom", fun _ _ => SubprocOutcome.fileNotFound⟩
      "lookup" ["x"] ⟨[], [], [], []⟩ ⟨Option.none, Option.none⟩ PyRet.pnone
      (by decide) (by decide)

/-! ## Claim C7 -/

/-- C7: single-argument lookup detection tries the IP pattern, then the
hash pattern, then the URL pattern, in that fixed order, and the first
matching pattern selects the one provider invoked; when nothing matches,
the unrecognized-artifact message is printed and no provider is invoked;
and the outcome is not an error — `lookup` being a registered command,
the dispatcher always returns normally with `continue = true`. -/
theorem c7_lookup_detection_order (t : String) :
    (IP_REGEX_match t = true →
      handler_lookup true true true [t] = ⟨some Provider.abuseIPDB, []⟩)
    ∧ (IP_REGEX_match t = false → HASH_REGEX_match t = true →
      handler_lookup true true true [t] = ⟨some Provider.malwareBazaar, []⟩)
    ∧ (IP_REGEX_match t = false → HASH_REGEX_match t = false →
        URL_REGEX_match t = true →
      handler_lookup true true true [t] = ⟨some Provider.urlHaus, []⟩)
    ∧ (IP_REGEX_match t = false → HASH_REGEX_match t = false →
        URL_REGEX_match t = false →
      handler_lookup true true true [t]
        = ⟨Option.none, ["Unrecognized artifact type: " ++ t]⟩)
    ∧ (∀ cfg env args fs st cur,
        ∃ r, execute cfg env "lookup" args fs st cur = .ok r ∧ r.cont = true) := by
  refine ⟨?_, ?_, ?_, ?_, ?_⟩
  · intro h
    simp [handler_lookup, h]
  · intro h1 h2
    simp [handler_lookup, h1, h2]
  · intro h1 h2 h3
    simp [handler_lookup, h1, h2, h3]
  · intro h1 h2 h3
    simp [handler_lookup, h1, h2, h3]
  · intro cfg env args fs st cur
    simp only [execute]
    norm_num
    cases hbe : env.builtinExc (pyLower "lookup") args with
    | some e => exact ⟨_, rfl, rfl⟩
    | none => exact ⟨_, rfl, rfl⟩

/-- C7 witness: the four detection outcomes at the artifacts of the
specification examples. -/
theorem c7_witness :
    handler_lookup true true true ["8.8.8.8"] = ⟨some Provider.abuseIPDB, []⟩
    ∧ handler_lookup true true true
        ["e3b0c44298fc1c149afbf4c8996fb92427ae41e4649b934ca495991b7852b855"]
        = ⟨some Provider.malwareBazaar, []⟩
    ∧ handler_lookup true true true ["http://x.test/a"] = ⟨some Provider.urlHaus, []⟩
    ∧ handler_lookup true true true ["not-an-artifact"]
        = ⟨Option.none, ["Unrecognized artifact type: " ++ "not-an-artifact"]⟩ :=
  ⟨(c7_lookup_detection_order "8.8.8.8").1 (by decide),
   (c7_lookup_detection_order
      "e3b0c44298fc1c149afbf4c8996fb92427ae41e4649b934ca495991b7852b855").2.1
     (by decide) (by decide),
   (c7_lookup_detection_order "http://x.test/a").2.2.1 (by decide) (by decide) (by decide),
   (c7_lookup_detection_order "not-an-artifact").2.2.2.1
     (by decide) (by decide) (by decide)⟩

end Mimir
